import Mathlib

/-!
Verification of the shadowharvester mining client.

Bytes are modelled as natural numbers below 256, byte strings as `List Nat`,
Rust strings as `String` or `List Char`.  64-bit machine arithmetic is
modelled on `Nat` with explicit reduction modulo `2 ^ 64` where the Rust
code wraps.  Fallible Rust code (panics, `Result`) is modelled with
`Option` / `Except`.
-/

namespace Shadow

set_option maxRecDepth 8000

/-- The bits of a byte, most significant first (bit 7 down to bit 0). -/
def bitsOfByteMSB (b : Nat) : List Bool :=
  [b.testBit 7, b.testBit 6, b.testBit 5, b.testBit 4,
   b.testBit 3, b.testBit 2, b.testBit 1, b.testBit 0]

/-- All bits of a byte string, in stream order (first byte first, MSB first). -/
def hashBits (h : List Nat) : List Bool :=
  (h.map bitsOfByteMSB).flatten

/-- Number of leading `false` entries of a bit list. -/
def countLeadingFalse : List Bool → Nat
  | [] => 0
  | b :: rest => if b then 0 else countLeadingFalse rest + 1

/-- Number of leading zero bits of a byte string (the quantity the spec calls
`leading_zero_bits`). -/
def leading_zero_bits (h : List Nat) : Nat :=
  countLeadingFalse (hashBits h)

/-- Embedding of `hash_structure_good` from `src/lib.rs`: check that the first
`zero_bits` bits of `hash` are zero, byte-wise with a mask on the last
partial byte. -/
def hash_structure_good (hash : List Nat) (zero_bits : Nat) : Bool :=
  let full_bytes := zero_bits / 8
  let remaining_bits := zero_bits % 8
  if hash.length < full_bytes || (hash.take full_bytes).any (fun b => b != 0) then
    false
  else if remaining_bits = 0 then
    true
  else if full_bytes < hash.length then
    let mask := (0xFF <<< (8 - remaining_bits)) % 256
    (hash.getD full_bytes 0) &&& mask == 0
  else
    false

/-- Value of a hexadecimal digit character, as accepted by the `hex` crate
and by `from_str_radix(_, 16)` (digits, lowercase and uppercase letters). -/
def hexVal (c : Char) : Option Nat :=
  let n := c.toNat
  if 48 ≤ n ∧ n ≤ 57 then some (n - 48)
  else if 97 ≤ n ∧ n ≤ 102 then some (n - 87)
  else if 65 ≤ n ∧ n ≤ 70 then some (n - 55)
  else none

/-- `hex::decode`: decode pairs of hex digits into bytes; fails on an odd
number of digits or an invalid digit. -/
def hexDecode : List Char → Option (List Nat)
  | [] => some []
  | [_] => none
  | c1 :: c2 :: rest =>
    match hexVal c1, hexVal c2, hexDecode rest with
    | some d1, some d2, some bs => some ((16 * d1 + d2) :: bs)
    | _, _, _ => none

/-- Rust `u8::leading_zeros`: the number of leading zero bits in the 8-bit
representation of a byte. -/
def u8_leading_zeros (b : Nat) : Nat :=
  countLeadingFalse (bitsOfByteMSB b)

/-- The byte loop of `difficulty_to_zero_bits` from `src/lib.rs`: add 8 for
every leading zero byte, then the leading zeros of the first non-zero byte. -/
def difficulty_to_zero_bits_bytes : List Nat → Nat
  | [] => 0
  | b :: rest =>
    if b = 0 then 8 + difficulty_to_zero_bits_bytes rest
    else u8_leading_zeros b

/-- Embedding of `difficulty_to_zero_bits` from `src/lib.rs`; the `unwrap`
on `hex::decode` is modelled by `Option`. -/
def difficulty_to_zero_bits (difficulty_hex : List Char) : Option Nat :=
  (hexDecode difficulty_hex).map difficulty_to_zero_bits_bytes

theorem countLeadingFalse_cons_true (rest : List Bool) :
    countLeadingFalse (true :: rest) = 0 := rfl

theorem countLeadingFalse_cons_false (rest : List Bool) :
    countLeadingFalse (false :: rest) = countLeadingFalse rest + 1 := rfl

theorem countLeadingFalse_ge_iff (l : List Bool) (k : Nat) :
    k ≤ countLeadingFalse l ↔ ∀ i < k, l.getD i true = false := by
  induction l generalizing k with
  | nil =>
    simp only [countLeadingFalse, Nat.le_zero, List.getD]
    constructor
    · rintro rfl i hi; omega
    · intro hf
      by_contra hk
      have := hf 0 (by omega)
      simp at this
  | cons b rest ih =>
    cases k with
    | zero => simp
    | succ j =>
      cases b with
      | true =>
        rw [countLeadingFalse_cons_true]
        constructor
        · intro h; omega
        · intro hf
          have := hf 0 (by omega)
          simp at this
      | false =>
        rw [countLeadingFalse_cons_false, Nat.add_le_add_iff_right, ih]
        constructor
        · intro hf i hi
          cases i with
          | zero => simp
          | succ i' => simpa using hf i' (by omega)
        · intro hf i hi
          simpa using hf (i + 1) (by omega)

theorem hashBits_length (h : List Nat) : (hashBits h).length = 8 * h.length := by
  induction h with
  | nil => simp [hashBits]
  | cons b t ih =>
    simp only [hashBits, List.map_cons, List.flatten_cons, List.length_append] at *
    simp [bitsOfByteMSB, ih]
    ring

theorem bitsOfByteMSB_getD (b : Nat) (i : Nat) (hi : i < 8) :
    (bitsOfByteMSB b).getD i true = b.testBit (7 - i) := by
  interval_cases i <;> rfl

theorem hashBits_getD (h : List Nat) (i : Nat) (hi : i < 8 * h.length) :
    (hashBits h).getD i true = (h.getD (i / 8) 0).testBit (7 - i % 8) := by
  induction h generalizing i with
  | nil => simp at hi
  | cons b t ih =>
    have hsplit : hashBits (b :: t) = bitsOfByteMSB b ++ hashBits t := by
      simp [hashBits]
    rw [hsplit]
    by_cases h8 : i < 8
    · rw [List.getD_append _ _ _ _ (by simp [bitsOfByteMSB]; omega)]
      rw [bitsOfByteMSB_getD b i h8]
      have h1 : i / 8 = 0 := Nat.div_eq_of_lt h8
      have h2 : i % 8 = i := Nat.mod_eq_of_lt h8
      rw [h1, h2]
      rfl
    · push_neg at h8
      have hlen : (bitsOfByteMSB b).length = 8 := by simp [bitsOfByteMSB]
      rw [List.getD_append_right _ _ _ _ (by omega)]
      rw [hlen]
      have hi' : i - 8 < 8 * t.length := by
        simp only [List.length_cons] at hi
        omega
      rw [ih (i - 8) hi']
      have e1 : i = (i - 8) + 8 := by omega
      have h1 : i / 8 = (i - 8) / 8 + 1 := by omega
      have h2 : i % 8 = (i - 8) % 8 := by omega
      rw [h1, h2]
      rfl

theorem byte_zero_iff_bits :
    ∀ b < 256, (b = 0 ↔ ∀ j < 8, b.testBit (7 - j) = false) := by decide

theorem byte_mask_iff_bits :
    ∀ r < 8, 0 < r →
      ∀ b < 256, (((b &&& ((0xFF <<< (8 - r)) % 256)) == 0) = true ↔
        ∀ j < r, b.testBit (7 - j) = false) := by decide

theorem bitsOfByteMSB_length (b : Nat) : (bitsOfByteMSB b).length = 8 := rfl

theorem byte_nonzero_cLF : ∀ b < 256, b ≠ 0 →
    countLeadingFalse (bitsOfByteMSB b) < 8 := by decide

theorem countLeadingFalse_append_of_lt (l1 l2 : List Bool)
    (h : countLeadingFalse l1 < l1.length) :
    countLeadingFalse (l1 ++ l2) = countLeadingFalse l1 := by
  induction l1 with
  | nil => simp at h
  | cons b t ih =>
    cases b with
    | true => rfl
    | false =>
      rw [List.cons_append, countLeadingFalse_cons_false, countLeadingFalse_cons_false]
      rw [countLeadingFalse_cons_false, List.length_cons] at h
      rw [ih (by omega)]

theorem take_zero_iff_bits (h : List Nat) (hbytes : ∀ b ∈ h, b < 256)
    (f : Nat) (hf : f ≤ h.length) :
    ((h.take f).any (fun b => b != 0) = false) ↔
      ∀ i < 8 * f, (h.getD (i / 8) 0).testBit (7 - i % 8) = false := by
  rw [List.any_eq_false]
  constructor
  · intro hz i hi
    have hj : i / 8 < f := by omega
    have hjl : i / 8 < h.length := by omega
    have hjt : i / 8 < (h.take f).length := by simp; omega
    have hmem : h.getD (i / 8) 0 ∈ h.take f := by
      have hg : (h.take f).get ⟨i / 8, hjt⟩ = h.getD (i / 8) 0 := by
        rw [List.getD_eq_getElem h 0 hjl]
        simp [List.get_eq_getElem, List.getElem_take]
      rw [← hg]
      exact List.get_mem _ _ _
    have hb0 : h.getD (i / 8) 0 = 0 := by
      have := hz _ hmem
      simpa using this
    rw [hb0]
    simp [Nat.zero_testBit]
  · intro hbits x hx
    simp only [bne_iff_ne, ne_eq, Decidable.not_not]
    obtain ⟨j, hj, rfl⟩ := List.getElem_of_mem hx
    have hjf : j < f := by simp at hj; omega
    have hjl : j < h.length := by simp at hj; omega
    have hder : (h.take f)[j] = h.getD j 0 := by
      rw [List.getElem_take, List.getD_eq_getElem h 0 hjl]
    rw [hder]
    apply (byte_zero_iff_bits _ (hbytes _ (by rw [List.getD_eq_getElem h 0 hjl]; exact List.getElem_mem hjl))).mpr
    intro t ht
    have := hbits (8 * j + t) (by omega)
    have e1 : (8 * j + t) / 8 = j := by omega
    have e2 : (8 * j + t) % 8 = t := by omega
    rwa [e1, e2] at this

/-- Bit-level characterisation of `hash_structure_good` on a 64-byte hash. -/
theorem hash_structure_good_iff_bits (h : List Nat) (hlen : h.length = 64)
    (hbytes : ∀ b ∈ h, b < 256) (k : Nat) (hk : k ≤ 512) :
    hash_structure_good h k = true ↔
      ∀ i < k, (h.getD (i / 8) 0).testBit (7 - i % 8) = false := by
  have hfull : k / 8 ≤ 64 := by omega
  have hnotlt : ¬ (h.length < k / 8) := by omega
  simp only [hash_structure_good]
  rw [decide_eq_false hnotlt, Bool.false_or]
  by_cases hrem : k % 8 = 0
  · rw [if_pos hrem]
    have hkf : 8 * (k / 8) = k := by omega
    cases hany : (h.take (k / 8)).any (fun b => b != 0) with
    | true =>
      rw [if_pos rfl]
      constructor
      · intro hfalse; exact absurd hfalse (by simp)
      · intro hbits
        have := (take_zero_iff_bits h hbytes (k / 8) (by omega)).mpr
          (by rw [hkf]; exact hbits)
        rw [hany] at this
        exact absurd this (by simp)
    | false =>
      rw [if_neg (by simp)]
      constructor
      · intro _
        have := (take_zero_iff_bits h hbytes (k / 8) (by omega)).mp hany
        rw [hkf] at this
        exact this
      · intro _; rfl
  · have hk511 : k < 512 := by omega
    have hflt : k / 8 < h.length := by omega
    rw [if_neg hrem, if_pos hflt]
    have hbyte : h.getD (k / 8) 0 < 256 := by
      apply hbytes
      rw [List.getD_eq_getElem h 0 hflt]
      exact List.getElem_mem hflt
    cases hany : (h.take (k / 8)).any (fun b => b != 0) with
    | true =>
      rw [if_pos rfl]
      constructor
      · intro hfalse; exact absurd hfalse (by simp)
      · intro hbits
        have := (take_zero_iff_bits h hbytes (k / 8) (by omega)).mpr
          (fun i hi => hbits i (by omega))
        rw [hany] at this
        exact absurd this (by simp)
    | false =>
      rw [if_neg (by simp)]
      rw [byte_mask_iff_bits (k % 8) (by omega) (by omega) _ hbyte]
      have hsplit := (take_zero_iff_bits h hbytes (k / 8) (by omega)).mp hany
      constructor
      · intro hmask i hi
        by_cases hlow : i < 8 * (k / 8)
        · exact hsplit i hlow
        · have hj : i - 8 * (k / 8) < k % 8 := by omega
          have e1 : i / 8 = k / 8 := by omega
          have e2 : i % 8 = i - 8 * (k / 8) := by omega
          rw [e1, e2]
          exact hmask _ hj
      · intro hbits j hj
        have := hbits (8 * (k / 8) + j) (by omega)
        have e1 : (8 * (k / 8) + j) / 8 = k / 8 := by omega
        have e2 : (8 * (k / 8) + j) % 8 = j := by omega
        rwa [e1, e2] at this

theorem leading_zero_bits_ge_iff (h : List Nat) (hlen : h.length = 64)
    (k : Nat) (hk : k ≤ 512) :
    k ≤ leading_zero_bits h ↔
      ∀ i < k, (h.getD (i / 8) 0).testBit (7 - i % 8) = false := by
  rw [leading_zero_bits, countLeadingFalse_ge_iff]
  constructor
  · intro hf i hi
    rw [← hashBits_getD h i (by rw [hlen]; omega)]
    exact hf i hi
  · intro hf i hi
    rw [hashBits_getD h i (by rw [hlen]; omega)]
    exact hf i hi

theorem hexVal_lt (c : Char) (d : Nat) (h : hexVal c = some d) : d < 16 := by
  simp only [hexVal] at h
  split at h
  · simp at h; omega
  · split at h
    · simp at h; omega
    · split at h
      · simp at h; omega
      · simp at h

theorem hexDecode_bytes_lt : ∀ (s : List Char) (bs : List Nat),
    hexDecode s = some bs → ∀ b ∈ bs, b < 256
  | [], bs, h => by
    simp only [hexDecode, Option.some.injEq] at h
    subst h; simp
  | [_], bs, h => by
    simp [hexDecode] at h
  | c1 :: c2 :: rest, bs, h => by
    unfold hexDecode at h
    cases h1 : hexVal c1 with
    | none => rw [h1] at h; simp at h
    | some d1 =>
      cases h2 : hexVal c2 with
      | none => rw [h1, h2] at h; simp at h
      | some d2 =>
        cases h3 : hexDecode rest with
        | none => rw [h1, h2, h3] at h; simp at h
        | some bs' =>
          rw [h1, h2, h3] at h
          simp only [Option.some.injEq] at h
          subst h
          intro b hb
          rcases List.mem_cons.mp hb with hb | hb
          · have := hexVal_lt c1 d1 h1
            have := hexVal_lt c2 d2 h2
            omega
          · exact hexDecode_bytes_lt rest bs' h3 b hb

theorem difficulty_bytes_eq_leading_zero_bits (bs : List Nat)
    (hb : ∀ b ∈ bs, b < 256) :
    difficulty_to_zero_bits_bytes bs = leading_zero_bits bs := by
  induction bs with
  | nil => rfl
  | cons b rest ih =>
    have hrest : ∀ x ∈ rest, x < 256 := fun x hx => hb x (List.mem_cons_of_mem b hx)
    have hsplit : hashBits (b :: rest) = bitsOfByteMSB b ++ hashBits rest := by
      simp [hashBits]
    by_cases hbz : b = 0
    · subst hbz
      have h0 : bitsOfByteMSB 0 =
          [false, false, false, false, false, false, false, false] := by decide
      rw [difficulty_to_zero_bits_bytes, if_pos rfl, ih hrest]
      simp only [leading_zero_bits, hsplit, h0, List.cons_append, List.nil_append,
        countLeadingFalse_cons_false]
      omega
    · rw [difficulty_to_zero_bits_bytes, if_neg hbz]
      rw [leading_zero_bits, hsplit,
        countLeadingFalse_append_of_lt _ _
          (by rw [bitsOfByteMSB_length]
              exact byte_nonzero_cLF b (hb b (List.mem_cons_self b rest)) hbz)]
      rfl

/-- C1: on 64-byte hashes, `hash_structure_good h k` accepts exactly when the
first `k` bits of `h` are zero, i.e. when `leading_zero_bits h ≥ k`, for every
`k ≤ 512`; and on every valid difficulty hex string, `difficulty_to_zero_bits`
returns the number of leading zero bits of the decoded bytes. -/
theorem hash_structure_good_and_difficulty_correct
    (h : List Nat) (hlen : h.length = 64) (hbytes : ∀ b ∈ h, b < 256)
    (k : Nat) (hk : k ≤ 512)
    (s : List Char) (bs : List Nat) (hdec : hexDecode s = some bs) :
    (hash_structure_good h k = true ↔ k ≤ leading_zero_bits h) ∧
      difficulty_to_zero_bits s = some (leading_zero_bits bs) := by
  constructor
  · rw [hash_structure_good_iff_bits h hlen hbytes k hk,
      leading_zero_bits_ge_iff h hlen k hk]
  · rw [difficulty_to_zero_bits, hdec]
    exact congrArg some (difficulty_bytes_eq_leading_zero_bits bs (hexDecode_bytes_lt s bs hdec))

/-- Witness for C1 at a concrete hash and difficulty string. -/
theorem hash_structure_good_and_difficulty_correct_witness :
    (hash_structure_good (List.replicate 64 0) 512 = true ↔
        512 ≤ leading_zero_bits (List.replicate 64 0)) ∧
      difficulty_to_zero_bits [Char.ofNat 48, Char.ofNat 48, Char.ofNat 102, Char.ofNat 102]
        = some (leading_zero_bits [0, 255]) :=
  hash_structure_good_and_difficulty_correct (List.replicate 64 0) (by decide)
    (by decide) 512 (by decide)
    [Char.ofNat 48, Char.ofNat 48, Char.ofNat 102, Char.ofNat 102] [0, 255] (by decide)

/-! ## Preimage construction (C9) -/

/-- Lowercase hexadecimal digit character for a value below 16. -/
def hexDigitChar (d : Nat) : Char :=
  if d < 10 then Char.ofNat (48 + d) else Char.ofNat (87 + d)

/-- Exactly `k` hexadecimal digits of `n`, most significant first,
zero-padded: the encoding produced by `format!` with width `k`, `x` format. -/
def toHexPad : Nat → Nat → List Char
  | 0, _ => []
  | k + 1, n => toHexPad k (n / 16) ++ [hexDigitChar (n % 16)]

/-- The Rust `format!` 16-character zero-padded lowercase hex form of a u64
nonce, as used by `build_preimage` in `src/lib.rs`. -/
def u64_hex16 (nonce : Nat) : List Char :=
  toHexPad 16 nonce

/-- Embedding of `build_preimage` from `src/lib.rs`: the fixed-order
concatenation of the nonce hex and the challenge string components. -/
def build_preimage (nonce : Nat) (address challenge_id difficulty no_pre_mine
    latest_submission no_pre_mine_hour : List Char) : List Char :=
  u64_hex16 nonce ++ address ++ challenge_id ++ difficulty ++ no_pre_mine ++
    latest_submission ++ no_pre_mine_hour

/-- Accumulator loop of `u64::from_str_radix(_, 16)`. -/
def parseHexAcc : Nat → List Char → Option Nat
  | acc, [] => some acc
  | acc, c :: cs =>
    match hexVal c with
    | some d => parseHexAcc (acc * 16 + d) cs
    | none => none

/-- `u64::from_str_radix(_, 16)` on a list of characters (an empty string is
a parse error). -/
def from_str_radix16 (s : List Char) : Option Nat :=
  if s = [] then none else parseHexAcc 0 s

theorem toHexPad_length (k n : Nat) : (toHexPad k n).length = k := by
  induction k generalizing n with
  | zero => rfl
  | succ k ih => simp [toHexPad, ih]

theorem hexVal_hexDigitChar : ∀ d < 16, hexVal (hexDigitChar d) = some d := by decide

theorem parseHexAcc_toHexPad (k : Nat) : ∀ (n acc : Nat) (rest : List Char),
    parseHexAcc acc (toHexPad k n ++ rest) =
      parseHexAcc (acc * 16 ^ k + n % 16 ^ k) rest := by
  induction k with
  | zero => intro n acc rest; simp [toHexPad, Nat.mod_one]
  | succ k ih =>
    intro n acc rest
    rw [toHexPad, List.append_assoc, ih (n / 16) acc]
    have hd : hexVal (hexDigitChar (n % 16)) = some (n % 16) :=
      hexVal_hexDigitChar (n % 16) (Nat.mod_lt n (by norm_num))
    rw [List.singleton_append, parseHexAcc, hd]
    have key : n % 16 ^ (k + 1) = 16 * (n / 16 % 16 ^ k) + n % 16 := by
      have h1 : (16 : Nat) ^ (k + 1) = 16 * 16 ^ k := by ring
      rw [h1, Nat.mod_mul]
      ring
    have harg : (acc * 16 ^ k + n / 16 % 16 ^ k) * 16 + n % 16
        = acc * 16 ^ (k + 1) + n % 16 ^ (k + 1) := by
      rw [key, pow_succ]
      ring
    show parseHexAcc ((acc * 16 ^ k + n / 16 % 16 ^ k) * 16 + n % 16) rest =
      parseHexAcc (acc * 16 ^ (k + 1) + n % 16 ^ (k + 1)) rest
    rw [harg]

/-- C9: `build_preimage` is the concatenation, in the fixed order nonce-hex,
address, challenge id, difficulty, rom key, latest submission, hour string;
the nonce occupies exactly the first 16 characters as zero-padded hex, and
parsing those 16 characters back in base 16 returns the nonce. -/
theorem build_preimage_structure (nonce : Nat) (hn : nonce < 2 ^ 64)
    (address challenge_id difficulty rom_key latest_submission hour : List Char) :
    build_preimage nonce address challenge_id difficulty rom_key
        latest_submission hour =
      u64_hex16 nonce ++ (address ++ (challenge_id ++ (difficulty ++
        (rom_key ++ (latest_submission ++ hour))))) ∧
    (u64_hex16 nonce).length = 16 ∧
    (build_preimage nonce address challenge_id difficulty rom_key
        latest_submission hour).take 16 = u64_hex16 nonce ∧
    from_str_radix16 ((build_preimage nonce address challenge_id difficulty
        rom_key latest_submission hour).take 16) = some nonce := by
  have hlen : (u64_hex16 nonce).length = 16 := toHexPad_length 16 nonce
  have hshape : build_preimage nonce address challenge_id difficulty rom_key
      latest_submission hour =
      u64_hex16 nonce ++ (address ++ (challenge_id ++ (difficulty ++
        (rom_key ++ (latest_submission ++ hour))))) := by
    unfold build_preimage
    simp [List.append_assoc]
  have htake : (build_preimage nonce address challenge_id difficulty rom_key
      latest_submission hour).take 16 = u64_hex16 nonce := by
    rw [hshape, List.take_append_of_le_length (by omega), ← hlen,
      List.take_length]
  refine ⟨hshape, hlen, htake, ?_⟩
  rw [htake]
  have hne : u64_hex16 nonce ≠ [] := by
    intro h
    rw [h] at hlen
    simp at hlen
  rw [from_str_radix16, if_neg hne]
  have hp := parseHexAcc_toHexPad 16 nonce 0 []
  rw [List.append_nil] at hp
  rw [u64_hex16, hp]
  simp only [parseHexAcc, Option.some.injEq]
  omega

/-- Witness for C9 at a concrete nonce and concrete components. -/
theorem build_preimage_structure_witness :
    (255 : Nat) < 2 ^ 64 ∧
      from_str_radix16 ((build_preimage 255 [Char.ofNat 97] [Char.ofNat 98]
          [Char.ofNat 99] [Char.ofNat 100] [Char.ofNat 101]
          [Char.ofNat 102]).take 16) = some 255 :=
  ⟨by norm_num,
    (build_preimage_structure 255 (by norm_num) [Char.ofNat 97] [Char.ofNat 98]
      [Char.ofNat 99] [Char.ofNat 100] [Char.ofNat 101] [Char.ofNat 102]).2.2.2⟩

/-! ## Mnemonic receipt gap scan (C8) -/

/-- The gap-scan loop of `next_wallet_deriv_index_for_challenge`
(`src/utils.rs` and `src/main.rs`): walk the sorted receipt indices; return
`expected` at the first gap, otherwise one past the last index
(`wrapping_add` on u32 modelled by the modulus). -/
def next_free_index_scan : Nat → List Nat → Nat
  | expected, [] => expected
  | expected, index :: rest =>
    if expected < index then expected
    else next_free_index_scan ((index + 1) % 2 ^ 32) rest

/-- Embedding of the index choice of `next_wallet_deriv_index_for_challenge`
on the sorted list of receipt-bearing derivation indices: 0 when there are
none, otherwise the gap scan from 0. -/
def next_wallet_deriv_index_for_challenge (parsed_indices : List Nat) : Nat :=
  if parsed_indices = [] then 0 else next_free_index_scan 0 parsed_indices

theorem next_free_index_scan_spec (l : List Nat) (hsort : l.Sorted (· < ·))
    (hbound : ∀ x ∈ l, x + 1 < 2 ^ 32) :
    ∀ e, (∀ x ∈ l, e ≤ x) →
      next_free_index_scan e l ∉ l ∧ e ≤ next_free_index_scan e l ∧
        ∀ m, e ≤ m → m ∉ l → next_free_index_scan e l ≤ m := by
  induction l with
  | nil =>
    intro e _
    exact ⟨List.not_mem_nil e, Nat.le_refl e, fun m hm _ => hm⟩
  | cons i rest ih =>
    intro e he
    have hei : e ≤ i := he i (List.mem_cons_self i rest)
    rw [List.sorted_cons] at hsort
    by_cases hlt : e < i
    · rw [next_free_index_scan, if_pos hlt]
      refine ⟨?_, Nat.le_refl e, fun m hm _ => hm⟩
      intro hmem
      rcases List.mem_cons.mp hmem with h | h
      · omega
      · have := hsort.1 e h
        omega
    · have hee : e = i := by omega
      rw [next_free_index_scan, if_neg hlt]
      have hw : (i + 1) % 2 ^ 32 = i + 1 :=
        Nat.mod_eq_of_lt (hbound i (List.mem_cons_self i rest))
      rw [hw]
      have hrest : ∀ x ∈ rest, i + 1 ≤ x := fun x hx => hsort.1 x hx
      obtain ⟨h1, h2, h3⟩ := ih hsort.2
        (fun x hx => hbound x (List.mem_cons_of_mem i hx)) (i + 1) hrest
      refine ⟨?_, by omega, ?_⟩
      · intro hmem
        rcases List.mem_cons.mp hmem with h | h
        · omega
        · exact h1 h
      · intro m hm hnm
        have hmne : m ≠ i := fun h => hnm (h ▸ List.mem_cons_self i rest)
        have : i + 1 ≤ m := by omega
        exact h3 m this (fun h => hnm (List.mem_cons_of_mem i h))

/-- C8: on the sorted list of derivation indices that carry a receipt,
`next_wallet_deriv_index_for_challenge` returns the least nonnegative integer
not in the list (the first unsolved index, not highest plus one). -/
theorem next_wallet_deriv_index_least (l : List Nat)
    (hsort : l.Sorted (· < ·)) (hbound : ∀ x ∈ l, x + 1 < 2 ^ 32) :
    next_wallet_deriv_index_for_challenge l ∉ l ∧
      ∀ m, m ∉ l → next_wallet_deriv_index_for_challenge l ≤ m := by
  by_cases hl : l = []
  · subst hl
    simp [next_wallet_deriv_index_for_challenge]
  · rw [next_wallet_deriv_index_for_challenge, if_neg hl]
    obtain ⟨h1, _, h3⟩ :=
      next_free_index_scan_spec l hsort hbound 0 (fun x _ => Nat.zero_le x)
    exact ⟨h1, fun m hm => h3 m (Nat.zero_le m) hm⟩

/-- Witness for C8 on the receipt set with a gap at index 2. -/
theorem next_wallet_deriv_index_least_witness :
    List.Sorted (· < ·) [0, 1, 3] ∧
      next_wallet_deriv_index_for_challenge [0, 1, 3] ∉ ([0, 1, 3] : List Nat) :=
  ⟨by decide,
    (next_wallet_deriv_index_least [0, 1, 3] (by decide) (by decide)).1⟩

/-! ## The hash VM (C3, C10)

The VM of `src/lib.rs` is embedded with the external Blake2b-512 primitive
abstracted as a function `H` from the absorbed transcript (a byte list) to
the 64-byte digest; a running `blake2b::Context` is modelled by its
transcript.  `Rom::at` lives in `src/rom.rs`, which is not part of the
sources; it is modelled from the spec (section 4.2): a function from the
address to the selected 64-byte chunk. -/

/-- Three-operand VM operators (`Op3` in `src/lib.rs`). -/
inductive Op3 where
  | add | mul | mulh | xorop | div | mod | andop
  | hash (v : Nat)
deriving DecidableEq

/-- Two-operand VM operators (`Op2` in `src/lib.rs`). -/
inductive Op2 where
  | isqrt | neg | bitrev | rotl | rotr
deriving DecidableEq

/-- Decoded opcode (`Instr` in `src/lib.rs`). -/
inductive Instr where
  | op3 (o : Op3)
  | op2 (o : Op2)
deriving DecidableEq

/-- `impl From<u8> for Instr`: the opcode range table of `src/lib.rs`. -/
def instrFromByte (b : Nat) : Instr :=
  if b < 40 then .op3 .add
  else if b < 80 then .op3 .mul
  else if b < 96 then .op3 .mulh
  else if b < 112 then .op3 .div
  else if b < 128 then .op3 .mod
  else if b < 138 then .op2 .isqrt
  else if b < 148 then .op2 .bitrev
  else if b < 188 then .op3 .xorop
  else if b < 204 then .op2 .rotl
  else if b < 220 then .op2 .rotr
  else if b < 240 then .op2 .neg
  else if b < 248 then .op3 .andop
  else .op3 (.hash (b - 248))

/-- Operand kinds (`Operand` in `src/lib.rs`). -/
inductive Operand where
  | reg | memory | literal | special1 | special2
deriving DecidableEq

/-- `impl From<u8> for Operand`: the assertion `value <= 0x0f` is modelled
by returning `none` (a panic) above 15. -/
def operandFromNibble (b : Nat) : Option Operand :=
  if b ≤ 0x0f then
    some (if b < 5 then .reg
      else if b < 9 then .memory
      else if b < 13 then .literal
      else if b < 14 then .special1
      else .special2)
  else none

/-- A decoded instruction (`Instruction` in `src/lib.rs`). -/
structure Instruction where
  opcode : Instr
  op1 : Operand
  op2 : Operand
  r1 : Nat
  r2 : Nat
  r3 : Nat
  lit1 : Nat
  lit2 : Nat

/-- Little-endian value of a byte list (first byte least significant). -/
def u64FromLEBytes (l : List Nat) : Nat :=
  l.foldr (fun b acc => acc * 256 + b) 0

/-- The 8 little-endian bytes of a 64-bit value (`u64::to_le_bytes`). -/
def u64ToLEBytes (n : Nat) : List Nat :=
  (List.range 8).map (fun i => (n >>> (8 * i)) % 256)

/-- Embedding of `decode_instruction` from `src/lib.rs` on a 20-byte
instruction chunk; `none` models the panic of `Operand::from`. -/
def decode_instruction (ins : List Nat) : Option Instruction :=
  let b1 := ins.getD 1 0
  match operandFromNibble (b1 >>> 4), operandFromNibble (b1 &&& 0x0f) with
  | some o1, some o2 =>
    let rs := ((ins.getD 2 0) <<< 8) ||| ins.getD 3 0
    let r1 := ((rs >>> 10) % 256) &&& 31
    let r2 := ((rs >>> 5) % 256) &&& 31
    let r3 := (rs % 256) &&& 31
    some { opcode := instrFromByte (ins.getD 0 0),
           op1 := o1, op2 := o2, r1 := r1, r2 := r2, r3 := r3,
           lit1 := u64FromLEBytes ((ins.drop 4).take 8),
           lit2 := u64FromLEBytes ((ins.drop 12).take 8) }
  | _, _ => none

/-- VM state (`struct VM` in `src/lib.rs`); the two Blake2b contexts are
modelled by their absorbed transcripts. -/
structure VMState where
  program : List Nat
  regs : List Nat
  ip : Nat
  prog_digest : List Nat
  mem_digest : List Nat
  prog_seed : List Nat
  memory_counter : Nat
  loop_counter : Nat

/-- The `mem_access64!` macro: fetch the 64-byte ROM chunk, absorb it in
`mem_digest`, bump the 32-bit access counter, and return one 8-byte slice
little-endian; `none` models the slice-conversion panic. -/
def mem_access64 (rom : Nat → List Nat) (vm : VMState) (addr : Nat) :
    Option (Nat × VMState) :=
  let mem := rom (addr % 2 ^ 32)
  let vm2 := { vm with mem_digest := vm.mem_digest ++ mem,
                       memory_counter := (vm.memory_counter + 1) % 2 ^ 32 }
  let idx := (vm2.memory_counter % 8) * 8
  let slice := (mem.drop idx).take 8
  if slice.length = 8 then some (u64FromLEBytes slice, vm2) else none

/-- The `special1_value64!` macro: first 8 bytes, little-endian, of the
finalized `prog_digest`. -/
def special1_value64 (H : List Nat → List Nat) (vm : VMState) : Option Nat :=
  let r := H vm.prog_digest
  if 8 ≤ r.length then some (u64FromLEBytes (r.take 8)) else none

/-- The `special2_value64!` macro: first 8 bytes, little-endian, of the
finalized `mem_digest`. -/
def special2_value64 (H : List Nat → List Nat) (vm : VMState) : Option Nat :=
  let r := H vm.mem_digest
  if 8 ≤ r.length then some (u64FromLEBytes (r.take 8)) else none

/-- Evaluate one source operand, as in the `match op1/op2` blocks of
`execute_one_instruction`; register reads out of bounds and slice panics
are `none`. -/
def evalOperand (H : List Nat → List Nat) (rom : Nat → List Nat)
    (k : Operand) (r : Nat) (lit : Nat) (vm : VMState) :
    Option (Nat × VMState) :=
  match k with
  | .reg => (vm.regs.get? r).map (fun v => (v, vm))
  | .memory => mem_access64 rom vm lit
  | .literal => some (lit, vm)
  | .special1 => (special1_value64 H vm).map (fun v => (v, vm))
  | .special2 => (special2_value64 H vm).map (fun v => (v, vm))

/-- 64-bit rotate left by `n mod 64` (`u64::rotate_left`). -/
def rotl64 (a n : Nat) : Nat :=
  let s := n % 64
  ((a <<< s) % 2 ^ 64) ||| (a >>> (64 - s))

/-- 64-bit rotate right by `n mod 64` (`u64::rotate_right`). -/
def rotr64 (a n : Nat) : Nat :=
  let s := n % 64
  (a >>> s) ||| ((a <<< (64 - s)) % 2 ^ 64)

/-- 64-bit bit reversal (`u64::reverse_bits`). -/
def reverseBits64 (a : Nat) : Nat :=
  (List.range 64).foldl (fun acc i => acc * 2 + (if a.testBit i then 1 else 0)) 0

/-- The `Op3` result computation of `execute_one_instruction`: wrapping
64-bit arithmetic; `Div` and `Mod` both fall back to special1 on a zero
divisor and both compute the quotient otherwise; `Hash v` selects the
`v`-th 8-byte chunk of the digest of the two operands (`none` models the
assertion and chunk panics). -/
def applyOp3 (H : List Nat → List Nat) (o : Op3) (s1 s2 : Nat)
    (vm : VMState) : Option Nat :=
  match o with
  | .add => some ((s1 + s2) % 2 ^ 64)
  | .mul => some ((s1 * s2) % 2 ^ 64)
  | .mulh => some (((s1 * s2) >>> 64) % 2 ^ 64)
  | .xorop => some (s1 ^^^ s2)
  | .div =>
    if s2 = 0 then special1_value64 H vm else some (s1 / s2)
  | .mod =>
    if s2 = 0 then special1_value64 H vm else some (s1 / s2)
  | .andop => some (s1 &&& s2)
  | .hash v =>
    if v < 8 then
      let out := H (u64ToLEBytes s1 ++ u64ToLEBytes s2)
      if 8 * v < out.length then
        let chunk := (out.drop (8 * v)).take 8
        if chunk.length = 8 then some (u64FromLEBytes chunk) else none
      else none
    else none

/-- The `Op2` result computation of `execute_one_instruction`; rotations
take `r1` as the count. -/
def applyOp2 (o : Op2) (s1 r1 : Nat) : Nat :=
  match o with
  | .neg => s1 ^^^ (2 ^ 64 - 1)
  | .rotl => rotl64 s1 r1
  | .rotr => rotr64 s1 r1
  | .isqrt => s1.sqrt
  | .bitrev => reverseBits64 s1

/-- Decode and execute one 20-byte instruction chunk on a VM state: the body
of `execute_one_instruction` from `src/lib.rs` after the program fetch.
`none` models any panic; the final `prog_digest` update with the chunk
bytes is the per-step trailer. -/
def executeChunk (H : List Nat → List Nat) (rom : Nat → List Nat)
    (chunk : List Nat) (vm : VMState) : Option VMState :=
  match decode_instruction chunk with
  | none => none
  | some ins =>
    match ins.opcode with
    | .op3 o =>
      match evalOperand H rom ins.op1 ins.r1 ins.lit1 vm with
      | none => none
      | some (s1, vm1) =>
        match evalOperand H rom ins.op2 ins.r2 ins.lit2 vm1 with
        | none => none
        | some (s2, vm2) =>
          match applyOp3 H o s1 s2 vm2 with
          | none => none
          | some result =>
            if ins.r3 < vm2.regs.length then
              some { vm2 with regs := vm2.regs.set ins.r3 result,
                              prog_digest := vm2.prog_digest ++ chunk }
            else none
    | .op2 o =>
      match evalOperand H rom ins.op1 ins.r1 ins.lit1 vm with
      | none => none
      | some (s1, vm1) =>
        let result := applyOp2 o s1 ins.r1
        if ins.r3 < vm1.regs.length then
          some { vm1 with regs := vm1.regs.set ins.r3 result,
                          prog_digest := vm1.prog_digest ++ chunk }
        else none

/-- `Program::at`: the 20-byte chunk at the wrapped instruction pointer. -/
def program_at (program : List Nat) (i : Nat) : List Nat :=
  ((program.drop (((i * 20) % 2 ^ 64) % program.length)).take 20)

/-- `execute_one_instruction` composed with the program fetch. -/
def execute_one_instruction (H : List Nat → List Nat)
    (rom : Nat → List Nat) (vm : VMState) : Option VMState :=
  executeChunk H rom (program_at vm.program vm.ip) vm

theorem evalOperand_total (H : List Nat → List Nat) (rom : Nat → List Nat)
    (hH : ∀ l, (H l).length = 64) (hrom : ∀ a, (rom a).length = 64)
    (k : Operand) (r lit : Nat) (vm : VMState) (hr : r < vm.regs.length) :
    ∃ v vm2, evalOperand H rom k r lit vm = some (v, vm2) ∧
      vm2.regs = vm.regs ∧ vm2.prog_digest = vm.prog_digest := by
  cases k with
  | reg =>
    have h := List.get?_eq_get hr
    have heq : evalOperand H rom .reg r lit vm = some (vm.regs.get ⟨r, hr⟩, vm) := by
      simp only [evalOperand]
      rw [h]
      rfl
    exact ⟨_, _, heq, rfl, rfl⟩
  | memory =>
    have hlen : (rom (lit % 2 ^ 32)).length = 64 := hrom _
    have hcond : (((rom (lit % 2 ^ 32)).drop
        ((((vm.memory_counter + 1) % 2 ^ 32) % 8) * 8)).take 8).length = 8 := by
      rw [List.length_take, List.length_drop, hlen]
      omega
    have heq : evalOperand H rom .memory r lit vm =
        some (u64FromLEBytes (((rom (lit % 2 ^ 32)).drop
            ((((vm.memory_counter + 1) % 2 ^ 32) % 8) * 8)).take 8),
          { vm with mem_digest := vm.mem_digest ++ rom (lit % 2 ^ 32),
                    memory_counter := (vm.memory_counter + 1) % 2 ^ 32 }) := by
      simp only [evalOperand, mem_access64]
      rw [if_pos hcond]
    exact ⟨_, _, heq, rfl, rfl⟩
  | literal => exact ⟨lit, vm, rfl, rfl, rfl⟩
  | special1 =>
    have heq : evalOperand H rom .special1 r lit vm =
        some (u64FromLEBytes ((H vm.prog_digest).take 8), vm) := by
      simp only [evalOperand, special1_value64]
      rw [if_pos (by rw [hH]; omega)]
      rfl
    exact ⟨_, _, heq, rfl, rfl⟩
  | special2 =>
    have heq : evalOperand H rom .special2 r lit vm =
        some (u64FromLEBytes ((H vm.mem_digest).take 8), vm) := by
      simp only [evalOperand, special2_value64]
      rw [if_pos (by rw [hH]; omega)]
      rfl
    exact ⟨_, _, heq, rfl, rfl⟩

theorem decode_r_bounds (ins : List Nat) (d : Instruction)
    (h : decode_instruction ins = some d) :
    d.r1 < 32 ∧ d.r2 < 32 ∧ d.r3 < 32 ∧ d.opcode = instrFromByte (ins.getD 0 0) := by
  simp only [decode_instruction] at h
  cases h1 : operandFromNibble (ins.getD 1 0 >>> 4) with
  | none => rw [h1] at h; simp at h
  | some o1 =>
    cases h2 : operandFromNibble (ins.getD 1 0 &&& 0x0f) with
    | none => rw [h1, h2] at h; simp at h
    | some o2 =>
      rw [h1, h2] at h
      simp only [Option.some.injEq] at h
      subst h
      refine ⟨?_, ?_, ?_, rfl⟩ <;>
        exact Nat.lt_succ_of_le (Nat.and_le_right)

theorem operandFromNibble_total (b : Nat) (hb : b < 256) :
    (operandFromNibble (b >>> 4)).isSome ∧ (operandFromNibble (b &&& 0x0f)).isSome := by
  constructor
  · rw [operandFromNibble, if_pos (by omega)]
    rfl
  · rw [operandFromNibble, if_pos (Nat.le_of_lt_succ (by
      have : b &&& 0x0f ≤ 0x0f := Nat.and_le_right
      omega))]
    rfl

theorem decode_instruction_total (ins : List Nat) (hbytes : ∀ b ∈ ins, b < 256)
    (hlen : ins.length = 20) :
    (decode_instruction ins).isSome := by
  have hb1 : ins.getD 1 0 < 256 := by
    apply hbytes
    rw [List.getD_eq_getElem ins 0 (by omega)]
    exact List.getElem_mem (by omega)
  obtain ⟨hn1, hn2⟩ := operandFromNibble_total (ins.getD 1 0) hb1
  rw [Option.isSome_iff_exists] at hn1 hn2
  obtain ⟨o1, ho1⟩ := hn1
  obtain ⟨o2, ho2⟩ := hn2
  simp only [decode_instruction]
  rw [ho1, ho2]
  rfl

theorem applyOp3_total (H : List Nat → List Nat) (hH : ∀ l, (H l).length = 64)
    (o : Op3) (hv : ∀ v, o = .hash v → v < 8) (s1 s2 : Nat) (vm : VMState) :
    ∃ r, applyOp3 H o s1 s2 vm = some r := by
  cases o with
  | add => exact ⟨_, rfl⟩
  | mul => exact ⟨_, rfl⟩
  | mulh => exact ⟨_, rfl⟩
  | xorop => exact ⟨_, rfl⟩
  | andop => exact ⟨_, rfl⟩
  | div =>
    by_cases hz : s2 = 0
    · have heq : applyOp3 H .div s1 s2 vm =
          some (u64FromLEBytes ((H vm.prog_digest).take 8)) := by
        simp only [applyOp3, if_pos hz, special1_value64]
        rw [if_pos (by rw [hH]; omega)]
      exact ⟨_, heq⟩
    · exact ⟨s1 / s2, by simp [applyOp3, hz]⟩
  | mod =>
    by_cases hz : s2 = 0
    · have heq : applyOp3 H .mod s1 s2 vm =
          some (u64FromLEBytes ((H vm.prog_digest).take 8)) := by
        simp only [applyOp3, if_pos hz, special1_value64]
        rw [if_pos (by rw [hH]; omega)]
      exact ⟨_, heq⟩
    · exact ⟨s1 / s2, by simp [applyOp3, hz]⟩
  | hash v =>
    have h8 : v < 8 := hv v rfl
    have heq : applyOp3 H (.hash v) s1 s2 vm =
        some (u64FromLEBytes
          (((H (u64ToLEBytes s1 ++ u64ToLEBytes s2)).drop (8 * v)).take 8)) := by
      simp only [applyOp3]
      rw [if_pos h8, if_pos (by rw [hH]; omega),
        if_pos (by rw [List.length_take, List.length_drop, hH]; omega)]
    exact ⟨_, heq⟩

theorem instrFromByte_hash_lt (b : Nat) (hb : b < 256) :
    ∀ v, instrFromByte b = .op3 (.hash v) → v < 8 := by
  intro v hv
  simp only [instrFromByte] at hv
  by_cases h1 : b < 40
  · rw [if_pos h1] at hv; exact absurd hv (by simp)
  rw [if_neg h1] at hv
  by_cases h2 : b < 80
  · rw [if_pos h2] at hv; exact absurd hv (by simp)
  rw [if_neg h2] at hv
  by_cases h3 : b < 96
  · rw [if_pos h3] at hv; exact absurd hv (by simp)
  rw [if_neg h3] at hv
  by_cases h4 : b < 112
  · rw [if_pos h4] at hv; exact absurd hv (by simp)
  rw [if_neg h4] at hv
  by_cases h5 : b < 128
  · rw [if_pos h5] at hv; exact absurd hv (by simp)
  rw [if_neg h5] at hv
  by_cases h6 : b < 138
  · rw [if_pos h6] at hv; exact absurd hv (by simp)
  rw [if_neg h6] at hv
  by_cases h7 : b < 148
  · rw [if_pos h7] at hv; exact absurd hv (by simp)
  rw [if_neg h7] at hv
  by_cases h8 : b < 188
  · rw [if_pos h8] at hv; exact absurd hv (by simp)
  rw [if_neg h8] at hv
  by_cases h9 : b < 204
  · rw [if_pos h9] at hv; exact absurd hv (by simp)
  rw [if_neg h9] at hv
  by_cases h10 : b < 220
  · rw [if_pos h10] at hv; exact absurd hv (by simp)
  rw [if_neg h10] at hv
  by_cases h11 : b < 240
  · rw [if_pos h11] at hv; exact absurd hv (by simp)
  rw [if_neg h11] at hv
  by_cases h12 : b < 248
  · rw [if_pos h12] at hv; exact absurd hv (by simp)
  rw [if_neg h12] at hv
  simp only [Instr.op3.injEq, Op3.hash.injEq] at hv
  omega

/-- C10: decoding and executing one VM step never panics, for any 20-byte
instruction buffer: the operand-kind nibbles always pass the `Operand::from`
assertion, the masked register indices are always in bounds of the 32-entry
register file, and the `Hash(v)` chunk of the 64-byte digest always exists. -/
theorem executeChunk_no_panic (H : List Nat → List Nat) (rom : Nat → List Nat)
    (hH : ∀ l, (H l).length = 64) (hrom : ∀ a, (rom a).length = 64)
    (chunk : List Nat) (hlen : chunk.length = 20)
    (hbytes : ∀ b ∈ chunk, b < 256)
    (vm : VMState) (hregs : vm.regs.length = 32) :
    (executeChunk H rom chunk vm).isSome := by
  obtain ⟨d, hd⟩ :=
    Option.isSome_iff_exists.mp (decode_instruction_total chunk hbytes hlen)
  obtain ⟨hr1, hr2, hr3, hop⟩ := decode_r_bounds chunk d hd
  have hb0 : chunk.getD 0 0 < 256 := by
    apply hbytes
    rw [List.getD_eq_getElem chunk 0 (by omega)]
    exact List.getElem_mem (by omega)
  simp only [executeChunk, hd]
  cases hoc : d.opcode with
  | op3 o =>
    obtain ⟨s1, vm1, he1, hregs1, hpd1⟩ :=
      evalOperand_total H rom hH hrom d.op1 d.r1 d.lit1 vm (by omega)
    obtain ⟨s2, vm2, he2, hregs2, hpd2⟩ :=
      evalOperand_total H rom hH hrom d.op2 d.r2 d.lit2 vm1
        (by rw [hregs1, hregs]; omega)
    have hv : ∀ v, o = .hash v → v < 8 := by
      intro v hvv
      apply instrFromByte_hash_lt (chunk.getD 0 0) hb0 v
      rw [← hop, hoc, hvv]
    obtain ⟨res, hres⟩ := applyOp3_total H hH o hv s1 s2 vm2
    simp only [he1, he2, hres]
    rw [if_pos (by rw [hregs2, hregs1, hregs]; omega)]
    rfl
  | op2 o =>
    obtain ⟨s1, vm1, he1, hregs1, hpd1⟩ :=
      evalOperand_total H rom hH hrom d.op1 d.r1 d.lit1 vm (by omega)
    simp only [he1]
    rw [if_pos (by rw [hregs1, hregs]; omega)]
    rfl

theorem getD_set_self_nat (l : List Nat) (i a : Nat) (h : i < l.length) :
    (l.set i a).getD i 0 = a := by
  rw [List.getD_eq_getElem _ _ (by simp; omega), List.getElem_set_self]

theorem instrFromByte_mod (b : Nat) (h1 : 112 ≤ b) (h2 : b < 128) :
    instrFromByte b = .op3 .mod := by
  simp only [instrFromByte]
  rw [if_neg (by omega), if_neg (by omega), if_neg (by omega),
    if_neg (by omega), if_pos (by omega)]

/-- C3: an instruction whose opcode byte is in `112..128` decodes to `Mod`,
and executing it stores into register `r3` the integer quotient
`src1 / src2` when `src2` is non-zero (not the remainder), and the first 8
bytes, little-endian, of the finalized `prog_digest` when `src2` is zero. -/
theorem mod_opcode_quotient (H : List Nat → List Nat) (rom : Nat → List Nat)
    (hH : ∀ l, (H l).length = 64) (hrom : ∀ a, (rom a).length = 64)
    (chunk : List Nat) (hlen : chunk.length = 20)
    (hbytes : ∀ b ∈ chunk, b < 256)
    (h112 : 112 ≤ chunk.getD 0 0) (h128 : chunk.getD 0 0 < 128)
    (vm : VMState) (hregs : vm.regs.length = 32) :
    ∃ d s1 vm1 s2 vm2 vmf,
      decode_instruction chunk = some d ∧ d.opcode = .op3 .mod ∧
      evalOperand H rom d.op1 d.r1 d.lit1 vm = some (s1, vm1) ∧
      evalOperand H rom d.op2 d.r2 d.lit2 vm1 = some (s2, vm2) ∧
      executeChunk H rom chunk vm = some vmf ∧
      vmf.regs.getD d.r3 0 =
        (if s2 = 0 then u64FromLEBytes ((H vm.prog_digest).take 8)
         else s1 / s2) := by
  obtain ⟨d, hd⟩ :=
    Option.isSome_iff_exists.mp (decode_instruction_total chunk hbytes hlen)
  obtain ⟨hr1, hr2, hr3, hop⟩ := decode_r_bounds chunk d hd
  have hopmod : d.opcode = .op3 .mod := by
    rw [hop]
    exact instrFromByte_mod _ h112 h128
  obtain ⟨s1, vm1, he1, hregs1, hpd1⟩ :=
    evalOperand_total H rom hH hrom d.op1 d.r1 d.lit1 vm (by omega)
  obtain ⟨s2, vm2, he2, hregs2, hpd2⟩ :=
    evalOperand_total H rom hH hrom d.op2 d.r2 d.lit2 vm1
      (by rw [hregs1, hregs]; omega)
  have hpd : vm2.prog_digest = vm.prog_digest := by rw [hpd2, hpd1]
  have hres : applyOp3 H .mod s1 s2 vm2 =
      some (if s2 = 0 then u64FromLEBytes ((H vm.prog_digest).take 8)
            else s1 / s2) := by
    by_cases hz : s2 = 0
    · simp only [applyOp3, if_pos hz, special1_value64, hpd]
      rw [if_pos (by rw [hH]; omega)]
    · simp only [applyOp3, if_neg hz]
  have hr3' : d.r3 < vm2.regs.length := by rw [hregs2, hregs1, hregs]; omega
  have hexec : executeChunk H rom chunk vm =
      some { vm2 with
        regs := vm2.regs.set d.r3
          (if s2 = 0 then u64FromLEBytes ((H vm.prog_digest).take 8)
           else s1 / s2),
        prog_digest := vm2.prog_digest ++ chunk } := by
    simp only [executeChunk, hd, hopmod, he1, he2, hres]
    rw [if_pos hr3']
  refine ⟨d, s1, vm1, s2, vm2, _, hd, hopmod, he1, he2, hexec, ?_⟩
  exact getD_set_self_nat vm2.regs d.r3 _ hr3'


/-- A trivial stand-in digest function for concrete evaluation. -/
def constH : List Nat → List Nat := fun _ => List.replicate 64 0

/-- A trivial stand-in ROM for concrete evaluation. -/
def constRom : Nat → List Nat := fun _ => List.replicate 64 0

/-- A concrete Mod instruction: opcode 112, literal operands 7 and 2. -/
def chunkMod : List Nat :=
  [112, 0x99, 0, 0, 7, 0, 0, 0, 0, 0, 0, 0, 2, 0, 0, 0, 0, 0, 0, 0]

/-- A concrete Hash(7) instruction: opcode 255, register operands. -/
def chunkHash : List Nat :=
  [255, 0x00, 0, 0, 0, 0, 0, 0, 0, 0, 0, 0, 0, 0, 0, 0, 0, 0, 0, 0]

/-- A concrete VM state with the 32-entry register file. -/
def vm0 : VMState :=
  { program := List.replicate 20 0, regs := List.replicate 32 0, ip := 0,
    prog_digest := [], mem_digest := [], prog_seed := [],
    memory_counter := 0, loop_counter := 0 }

/-- Witness for C3 on the concrete Mod instruction. -/
theorem mod_opcode_quotient_witness :
    chunkMod.length = 20 ∧ (executeChunk constH constRom chunkMod vm0).isSome := by
  refine ⟨rfl, ?_⟩
  obtain ⟨d, s1, vm1, s2, vm2, vmf, hd, hop, he1, he2, hexec, hval⟩ :=
    mod_opcode_quotient constH constRom
      (fun l => by simp [constH]) (fun a => by simp [constRom])
      chunkMod rfl (by decide) (by decide) (by decide) vm0 rfl
  rw [hexec]
  rfl

/-- Witness for C10 on the concrete Hash(7) instruction. -/
theorem executeChunk_no_panic_witness :
    chunkHash.length = 20 ∧ (executeChunk constH constRom chunkHash vm0).isSome :=
  ⟨rfl, executeChunk_no_panic constH constRom
    (fun l => by simp [constH]) (fun a => by simp [constRom])
    chunkHash rfl (by decide) vm0 rfl⟩

/-! ## The persistence store and the State Worker (C2, C5, C6)

The Sled database is modelled as an association list with insert, remove
and lookup; the blocking HTTP submission of `src/state_worker.rs` is
modelled with the network abstracted as a stream of per-attempt outcomes,
and the retry loop given explicit fuel (8 exceeds the bound the backoff
guard enforces). -/

/-- `str::contains` helper: does the list start with the pattern. -/
def startsWithChars : List Char → List Char → Bool
  | _, [] => true
  | [], _ :: _ => false
  | a :: s, b :: p => a == b && startsWithChars s p

/-- `str::contains` on character lists. -/
def containsChars : List Char → List Char → Bool
  | [], pat => pat.isEmpty
  | a :: s, pat => startsWithChars (a :: s) pat || containsChars s pat

/-- Rust `str::contains` (substring search). -/
def strContains (s pat : String) : Bool :=
  containsChars s.data pat.data

/-- The Sled key-value store, modelled as an association list. -/
abbrev Store := List (String × String)

/-- `persistence.set` / `db.insert`: overwrite the key. -/
def storeInsert (s : Store) (k v : String) : Store :=
  (k, v) :: s.filter (fun e => e.1 != k)

/-- `db.remove`. -/
def storeRemove (s : Store) (k : String) : Store :=
  s.filter (fun e => e.1 != k)

/-- `persistence.get`. -/
def storeGet (s : Store) (k : String) : Option String :=
  (s.find? (fun e => e.1 == k)).map (fun e => e.2)

theorem storeGet_insert_self (s : Store) (k v : String) :
    storeGet (storeInsert s k v) k = some v := by
  simp [storeGet, storeInsert, List.find?]

theorem storeGet_remove_self (s : Store) (k : String) :
    storeGet (storeRemove s k) k = none := by
  induction s with
  | nil => rfl
  | cons e t ih =>
    by_cases he : e.1 = k
    · simp only [storeRemove, storeGet] at ih ⊢
      rw [List.filter_cons, if_neg (by simp [he])]
      exact ih
    · simp only [storeRemove, storeGet] at ih ⊢
      rw [List.filter_cons]
      rw [if_pos (by simp [he])]
      rw [List.find?]
      rw [show (e.1 == k) = false by simp [he]]
      exact ih

theorem storeGet_remove_other (s : Store) (k k' : String) (h : k' ≠ k) :
    storeGet (storeRemove s k) k' = storeGet s k' := by
  induction s with
  | nil => rfl
  | cons e t ih =>
    by_cases he : e.1 = k
    · have hne : (e.1 == k') = false :=
        beq_eq_false_iff_ne.mpr (by rw [he]; exact fun hh => h hh.symm)
      simp only [storeRemove, storeGet] at ih ⊢
      rw [List.filter_cons, if_neg (by simp [he]), List.find?, hne]
      exact ih
    · simp only [storeRemove, storeGet] at ih ⊢
      rw [List.filter_cons, if_pos (by simp [he])]
      by_cases he' : e.1 = k'
      · rw [List.find?, List.find?]
        rw [show (e.1 == k') = true by simp [he']]
      · rw [List.find?, List.find?]
        rw [show (e.1 == k') = false by simp [he']]
        exact ih

/-- A pending solution; the `PendingSolution` struct declaration is not in
the sources, its fields are taken from the uses in `src/state_worker.rs`
and the spec (section 3). -/
structure PendingSolution where
  address : String
  challenge_id : String
  nonce : String
deriving DecidableEq

def SLED_KEY_RECEIPT : String := "receipt"
def SLED_KEY_PENDING : String := "pending"
def SLED_KEY_CHALLENGE : String := "challenge"
def SLED_KEY_MNEMONIC_INDEX : String := "mnemonic_index"

/-- `get_sled_pending_key` from `src/state_worker.rs`:
`pending:<ADDRESS>:<CHALLENGE_ID>:<NONCE>`. -/
def get_sled_pending_key (solution : PendingSolution) : String :=
  SLED_KEY_PENDING ++ ":" ++ solution.address ++ ":" ++ solution.challenge_id ++
    ":" ++ solution.nonce

/-- `get_sled_receipt_key` from `src/state_worker.rs`:
`receipt:<ADDRESS>:<CHALLENGE_ID>`. -/
def get_sled_receipt_key (address challenge_id : String) : String :=
  SLED_KEY_RECEIPT ++ ":" ++ address ++ ":" ++ challenge_id

theorem receipt_key_ne_pending_key (a c : String) (sol : PendingSolution) :
    get_sled_receipt_key a c ≠ get_sled_pending_key sol := by
  intro h
  have hd := congrArg String.data h
  simp [get_sled_receipt_key, get_sled_pending_key, SLED_KEY_RECEIPT,
    SLED_KEY_PENDING, String.data_append] at hd

/-- Exact minimum on rationals (`f64::min` on the exactly-representable
backoff values). -/
def ratMin (a b : ℚ) : ℚ := if a ≤ b then a else b

/-- The `Backoff` struct of `src/backoff.rs`. -/
structure Backoff where
  cur : ℚ
  min : ℚ
  max : ℚ
  factor : ℚ
deriving DecidableEq

/-- `Backoff::new`. -/
def Backoff.new (min max : Nat) (factor : ℚ) : Backoff :=
  { cur := min, min := min, max := max, factor := factor }

/-- The seconds slept by `Backoff::sleep`: `cur.min(max)`. -/
def Backoff.sleepSecs (b : Backoff) : ℚ := ratMin b.cur b.max

/-- The state update of `Backoff::sleep`: `cur = (cur * factor).min(max)`. -/
def Backoff.step (b : Backoff) : Backoff :=
  { b with cur := ratMin (b.cur * b.factor) b.max }

/-- Outcome of one `api::submit_solution` call (`Result<Value, String>`;
the receipt JSON value is kept abstract as a string). -/
inductive ApiResult where
  | ok (receipt_json : String)
  | err (e : String)
deriving DecidableEq

/-- `Result<(), String>` of `run_blocking_submission`. -/
inductive SubmitOutcome where
  | ok
  | error (msg : String)
deriving DecidableEq

/-- The solved-marker receipt JSON written when the network reports the
solution as already consumed (keys in serde_json BTreeMap order). -/
def solved_marker_json (sol : PendingSolution) : String :=
  "\x7b\"address\":\"" ++ sol.address ++ "\",\"challenge_id\":\"" ++
    sol.challenge_id ++
    "\",\"note\":\"Solution consumed by network; no receipt recovered.\",\"status\":\"solved_by_network\"\x7d"

/-- The retry loop of `run_blocking_submission` from `src/state_worker.rs`.
`submit k` is the outcome of the `k`-th `api::submit_solution` call;
the result carries the final store, the list of slept backoff durations and
the returned `Result`; `none` models running out of fuel (the backoff guard
bounds the real loop to at most 7 iterations). -/
def run_blocking_submission_go (submit : Nat → ApiResult)
    (serialize_receipt : String → Option String) (sol : PendingSolution) :
    Nat → Backoff → Store → List ℚ → Nat → Option (Store × List ℚ × SubmitOutcome)
  | _, _, _, _, 0 => none
  | k, backoff, store, sleeps, fuel + 1 =>
    match submit k with
    | .ok receipt_json =>
      match serialize_receipt receipt_json with
      | none => some (store, sleeps, .error "Failed to serialize receipt JSON")
      | some receipt_content =>
        let store1 := storeInsert store
          (get_sled_receipt_key sol.address sol.challenge_id) receipt_content
        let store2 := storeRemove store1 (get_sled_pending_key sol)
        some (store2, sleeps, .ok)
    | .err e =>
      let is_nonce_consumed := strContains e "Solution already submitted" ||
        strContains e "Solution already exists"
      let is_deadline_past := strContains e "Submission window closed"
      if is_nonce_consumed then
        let store1 := storeInsert store
          (get_sled_receipt_key sol.address sol.challenge_id)
          (solved_marker_json sol)
        let store2 := storeRemove store1 (get_sled_pending_key sol)
        some (store2, sleeps,
          .error ("PERMANENT_ERROR: Solution consumed by network: " ++ e))
      else if is_deadline_past then
        some (store, sleeps, .error ("PERMANENT_ERROR: Deadline passed: " ++ e))
      else if backoff.max ≤ backoff.cur then
        some (store, sleeps, .error ("Submission failed after max backoff: " ++ e))
      else
        run_blocking_submission_go submit serialize_receipt sol (k + 1)
          backoff.step store (sleeps ++ [backoff.sleepSecs]) fuel

/-- `run_blocking_submission`: the loop started with `Backoff::new(5, 300, 2.0)`. -/
def run_blocking_submission (submit : Nat → ApiResult)
    (serialize_receipt : String → Option String) (sol : PendingSolution)
    (store : Store) : Option (Store × List ℚ × SubmitOutcome) :=
  run_blocking_submission_go submit serialize_receipt sol 0
    (Backoff.new 5 300 2) store [] 8

/-- C5: if an attempt fails with an already-consumed error, the solved-marker
receipt is written under `receipt:<address>:<challenge_id>`, the pending
entry is deleted, and the loop exits at once with a permanent error. -/
theorem consumed_error_writes_marker (submit : Nat → ApiResult)
    (serialize_receipt : String → Option String) (sol : PendingSolution)
    (k : Nat) (b : Backoff) (store : Store) (sleeps : List ℚ) (fuel : Nat)
    (e : String) (hsub : submit k = .err e)
    (hcons : (strContains e "Solution already submitted" ||
      strContains e "Solution already exists") = true) :
    run_blocking_submission_go submit serialize_receipt sol k b store sleeps
        (fuel + 1) =
      some (storeRemove (storeInsert store
          (get_sled_receipt_key sol.address sol.challenge_id)
          (solved_marker_json sol)) (get_sled_pending_key sol),
        sleeps,
        .error ("PERMANENT_ERROR: Solution consumed by network: " ++ e)) ∧
    storeGet (storeRemove (storeInsert store
        (get_sled_receipt_key sol.address sol.challenge_id)
        (solved_marker_json sol)) (get_sled_pending_key sol))
      (get_sled_receipt_key sol.address sol.challenge_id) =
        some (solved_marker_json sol) ∧
    storeGet (storeRemove (storeInsert store
        (get_sled_receipt_key sol.address sol.challenge_id)
        (solved_marker_json sol)) (get_sled_pending_key sol))
      (get_sled_pending_key sol) = none := by
  refine ⟨?_, ?_, storeGet_remove_self _ _⟩
  · simp only [run_blocking_submission_go, hsub]
    rw [if_pos hcons]
  · rw [storeGet_remove_other _ _ _
      (receipt_key_ne_pending_key sol.address sol.challenge_id sol)]
    exact storeGet_insert_self _ _ _

/-- A concrete pending solution for the witnesses. -/
def solW : PendingSolution :=
  { address := "addr1", challenge_id := "ch1", nonce := "000000000000002a" }

/-- A network that always reports the solution as already consumed. -/
def submitConsumed : Nat → ApiResult :=
  fun _ => .err "API Validation Failed: (Status 409) Solution already exists"

/-- Witness for C5 on a concrete already-consumed error. -/
theorem consumed_error_writes_marker_witness :
    submitConsumed 0 =
      .err "API Validation Failed: (Status 409) Solution already exists" ∧
    storeGet (storeRemove (storeInsert [] (get_sled_receipt_key "addr1" "ch1")
        (solved_marker_json solW)) (get_sled_pending_key solW))
      (get_sled_pending_key solW) = none :=
  ⟨rfl,
    (consumed_error_writes_marker submitConsumed (fun s => some s) solW 0
      (Backoff.new 5 300 2) [] [] 7
      "API Validation Failed: (Status 409) Solution already exists" rfl
      (by decide)).2.2⟩

theorem go_retry_step (submit : Nat → ApiResult)
    (serialize_receipt : String → Option String) (sol : PendingSolution)
    (k : Nat) (b : Backoff) (store : Store) (sleeps : List ℚ)
    (fuel0 fuel : Nat) (hf : fuel0 = fuel + 1) (e : String)
    (hsub : submit k = .err e)
    (h1 : strContains e "Solution already submitted" = false)
    (h2 : strContains e "Solution already exists" = false)
    (h3 : strContains e "Submission window closed" = false)
    (hb : ¬ b.max ≤ b.cur) :
    run_blocking_submission_go submit serialize_receipt sol k b store sleeps fuel0 =
      run_blocking_submission_go submit serialize_receipt sol (k + 1) b.step
        store (sleeps ++ [b.sleepSecs]) fuel := by
  subst hf
  simp only [run_blocking_submission_go, hsub, h1, h2, h3, Bool.or_self]
  rw [if_neg (by simp), if_neg (by simp), if_neg hb]

theorem go_giveup_step (submit : Nat → ApiResult)
    (serialize_receipt : String → Option String) (sol : PendingSolution)
    (k : Nat) (b : Backoff) (store : Store) (sleeps : List ℚ)
    (fuel0 fuel : Nat) (hf : fuel0 = fuel + 1) (e : String)
    (hsub : submit k = .err e)
    (h1 : strContains e "Solution already submitted" = false)
    (h2 : strContains e "Solution already exists" = false)
    (h3 : strContains e "Submission window closed" = false)
    (hb : b.max ≤ b.cur) :
    run_blocking_submission_go submit serialize_receipt sol k b store sleeps fuel0 =
      some (store, sleeps,
        .error ("Submission failed after max backoff: " ++ e)) := by
  subst hf
  simp only [run_blocking_submission_go, hsub, h1, h2, h3, Bool.or_self]
  rw [if_neg (by simp), if_neg (by simp), if_pos hb]

/-- C6 (amended): every submission error that is neither already-consumed
nor window-closed — other 4xx validation errors included — is retried with
the exponential backoff (5 s minimum, 300 s maximum, factor 2); the loop is
bounded (7 attempts, sleeping 5, 10, 20, 40, 80, 160 s), and on give-up it
returns a non-permanent error leaving the store, hence the pending entry,
untouched. -/
theorem other_errors_all_retried (submit : Nat → ApiResult)
    (serialize_receipt : String → Option String) (sol : PendingSolution)
    (store : Store)
    (herr : ∀ k, ∃ e, submit k = .err e ∧
      strContains e "Solution already submitted" = false ∧
      strContains e "Solution already exists" = false ∧
      strContains e "Submission window closed" = false) :
    ∃ e6, submit 6 = .err e6 ∧
      run_blocking_submission submit serialize_receipt sol store =
        some (store, [5, 10, 20, 40, 80, 160],
          .error ("Submission failed after max backoff: " ++ e6)) := by
  obtain ⟨e0, he0, h01, h02, h03⟩ := herr 0
  obtain ⟨e1, he1, h11, h12, h13⟩ := herr 1
  obtain ⟨e2, he2, h21, h22, h23⟩ := herr 2
  obtain ⟨e3, he3, h31, h32, h33⟩ := herr 3
  obtain ⟨e4, he4, h41, h42, h43⟩ := herr 4
  obtain ⟨e5, he5, h51, h52, h53⟩ := herr 5
  obtain ⟨e6, he6, h61, h62, h63⟩ := herr 6
  refine ⟨e6, he6, ?_⟩
  rw [run_blocking_submission]
  rw [go_retry_step submit serialize_receipt sol 0 (Backoff.new 5 300 2)
    store [] 8 7 (by norm_num) e0 he0 h01 h02 h03
    (by norm_num [Backoff.new])]
  rw [show (Backoff.new 5 300 2).step = ⟨10, 5, 300, 2⟩ by
    norm_num [Backoff.new, Backoff.step, ratMin]]
  rw [go_retry_step submit serialize_receipt sol 1 ⟨10, 5, 300, 2⟩
    store _ 7 6 (by norm_num) e1 he1 h11 h12 h13 (by norm_num)]
  rw [show (⟨10, 5, 300, 2⟩ : Backoff).step = ⟨20, 5, 300, 2⟩ by
    norm_num [Backoff.step, ratMin]]
  rw [go_retry_step submit serialize_receipt sol 2 ⟨20, 5, 300, 2⟩
    store _ 6 5 (by norm_num) e2 he2 h21 h22 h23 (by norm_num)]
  rw [show (⟨20, 5, 300, 2⟩ : Backoff).step = ⟨40, 5, 300, 2⟩ by
    norm_num [Backoff.step, ratMin]]
  rw [go_retry_step submit serialize_receipt sol 3 ⟨40, 5, 300, 2⟩
    store _ 5 4 (by norm_num) e3 he3 h31 h32 h33 (by norm_num)]
  rw [show (⟨40, 5, 300, 2⟩ : Backoff).step = ⟨80, 5, 300, 2⟩ by
    norm_num [Backoff.step, ratMin]]
  rw [go_retry_step submit serialize_receipt sol 4 ⟨80, 5, 300, 2⟩
    store _ 4 3 (by norm_num) e4 he4 h41 h42 h43 (by norm_num)]
  rw [show (⟨80, 5, 300, 2⟩ : Backoff).step = ⟨160, 5, 300, 2⟩ by
    norm_num [Backoff.step, ratMin]]
  rw [go_retry_step submit serialize_receipt sol 5 ⟨160, 5, 300, 2⟩
    store _ 3 2 (by norm_num) e5 he5 h51 h52 h53 (by norm_num)]
  rw [show (⟨160, 5, 300, 2⟩ : Backoff).step = ⟨300, 5, 300, 2⟩ by
    norm_num [Backoff.step, ratMin]]
  rw [go_giveup_step submit serialize_receipt sol 6 ⟨300, 5, 300, 2⟩
    store _ 2 1 (by norm_num) e6 he6 h61 h62 h63 (by norm_num)]
  have hsl : ([] : List ℚ) ++ [(Backoff.new 5 300 2).sleepSecs] ++
      [(⟨10, 5, 300, 2⟩ : Backoff).sleepSecs] ++
      [(⟨20, 5, 300, 2⟩ : Backoff).sleepSecs] ++
      [(⟨40, 5, 300, 2⟩ : Backoff).sleepSecs] ++
      [(⟨80, 5, 300, 2⟩ : Backoff).sleepSecs] ++
      [(⟨160, 5, 300, 2⟩ : Backoff).sleepSecs] =
      [5, 10, 20, 40, 80, 160] := by
    norm_num [Backoff.new, Backoff.sleepSecs, ratMin]
  rw [hsl]

/-- A 4xx validation error that is neither already-consumed nor
window-closed. -/
def e4xx : String := "API Validation Failed: (Status 422) Invalid difficulty"

/-- A network whose first attempt fails with the 4xx error and whose second
attempt succeeds. -/
def submit4xxThenOk : Nat → ApiResult :=
  fun k => if k = 0 then .err e4xx else .ok "rcpt"

/-- The store holding the pending entry for the concrete solution. -/
def storeW : Store := [(get_sled_pending_key solW, "soljson")]

/-- C6 counterexample: on a 4xx validation error that is neither
already-consumed nor window-closed, the code does not return a permanent
error immediately: it sleeps 5 s, retries, and when the second attempt
succeeds it returns Ok and deletes the pending entry — contradicting
"returns a permanent error immediately, without deleting the pending entry
and without retrying". -/
theorem other_4xx_retried_counterexample :
    run_blocking_submission submit4xxThenOk (fun s => some s) solW storeW =
      some (storeRemove (storeInsert storeW
          (get_sled_receipt_key "addr1" "ch1") "rcpt")
        (get_sled_pending_key solW), [5], .ok) ∧
    storeGet (storeRemove (storeInsert storeW
        (get_sled_receipt_key "addr1" "ch1") "rcpt")
      (get_sled_pending_key solW)) (get_sled_pending_key solW) = none := by
  constructor
  · decide
  · decide

/-- Witness for the amended C6 on a network that always returns the 4xx
error. -/
theorem other_errors_all_retried_witness :
    strContains e4xx "Solution already submitted" = false ∧
    run_blocking_submission (fun _ => .err e4xx) (fun s => some s) solW storeW =
      some (storeW, [5, 10, 20, 40, 80, 160],
        .error ("Submission failed after max backoff: " ++ e4xx)) := by
  refine ⟨by decide, ?_⟩
  obtain ⟨e6, he6, hrun⟩ := other_errors_all_retried (fun _ => .err e4xx)
    (fun s => some s) solW storeW
    (fun k => ⟨e4xx, rfl, by decide, by decide, by decide⟩)
  have he : e6 = e4xx := by
    have := he6
    simp only [ApiResult.err.injEq] at this
    exact this.symm
  rw [he] at hrun
  exact hrun

/-- Commands received by the State Worker (`SubmitterCommand`; the enum
declaration is not in the sources, the variants are taken from the match in
`run_state_worker`). -/
inductive SubmitterCommand where
  | saveState (key value : String)
  | getState (key : String)
  | submitSolution (sol : PendingSolution)
  | sweepPendingSolutions
  | shutdown
deriving DecidableEq

/-- Observable actions of one State Worker command cycle, in program
order. -/
inductive SWEvent where
  | storeSet (key value : String) (ok : Bool)
  | reply (key : String) (value : Option String)
  | spawnSubmission (sol : PendingSolution)
  | wsSend (sol : PendingSolution)
  | sweepRun
  | closeDb
deriving DecidableEq

/-- One iteration of the command loop of `run_state_worker` from
`src/state_worker.rs`, as a state transition producing the ordered list of
its observable actions.  `serialize_solution` models
`serde_json::to_string`, `set_fails` is the oracle for Sled write
failures. -/
def handleCommand (serialize_solution : PendingSolution → Option String)
    (set_fails : String → String → Bool) (is_websocket_mode : Bool)
    (store : Store) : SubmitterCommand → Store × List SWEvent
  | .saveState key value =>
    if set_fails key value then (store, [.storeSet key value false])
    else (storeInsert store key value, [.storeSet key value true])
  | .getState key => (store, [.reply key (storeGet store key)])
  | .submitSolution sol =>
    match serialize_solution sol with
    | none => (store, [])
    | some solution_json =>
      let pending_key := get_sled_pending_key sol
      if set_fails pending_key solution_json then
        (store, [.storeSet pending_key solution_json false])
      else
        let store2 := storeInsert store pending_key solution_json
        if is_websocket_mode = false then
          (store2, [.storeSet pending_key solution_json true,
            .spawnSubmission sol])
        else
          (store2, [.storeSet pending_key solution_json true, .wsSend sol])
  | .sweepPendingSolutions =>
    (store, if is_websocket_mode then [.sweepRun] else [])
  | .shutdown => (store, [.closeDb])

/-- C2: handling `SubmitSolution(s)` writes the solution under
`pending:<address>:<challenge_id>:<nonce>` strictly before the submission
handler is spawned (HTTP mode) or the solution is forwarded on the
WebSocket channel (WS mode); and when that write fails, no submission
attempt of either kind occurs. -/
theorem submit_solution_persist_before_network
    (serialize_solution : PendingSolution → Option String)
    (set_fails : String → String → Bool) (is_websocket_mode : Bool)
    (store : Store) (sol : PendingSolution) (solution_json : String)
    (hser : serialize_solution sol = some solution_json) :
    (∀ i,
      ((handleCommand serialize_solution set_fails is_websocket_mode store
          (.submitSolution sol)).2.get? i = some (.spawnSubmission sol) ∨
       (handleCommand serialize_solution set_fails is_websocket_mode store
          (.submitSolution sol)).2.get? i = some (.wsSend sol)) →
      ∃ j < i,
        (handleCommand serialize_solution set_fails is_websocket_mode store
          (.submitSolution sol)).2.get? j =
          some (.storeSet (get_sled_pending_key sol) solution_json true) ∧
        storeGet (handleCommand serialize_solution set_fails is_websocket_mode
          store (.submitSolution sol)).1 (get_sled_pending_key sol) =
          some solution_json) ∧
    (set_fails (get_sled_pending_key sol) solution_json = true →
      (∀ e ∈ (handleCommand serialize_solution set_fails is_websocket_mode
          store (.submitSolution sol)).2,
        e ≠ .spawnSubmission sol ∧ e ≠ .wsSend sol) ∧
      (handleCommand serialize_solution set_fails is_websocket_mode store
        (.submitSolution sol)).1 = store) := by
  by_cases hfail : set_fails (get_sled_pending_key sol) solution_json = true
  · have hred : handleCommand serialize_solution set_fails is_websocket_mode
        store (.submitSolution sol) =
        (store, [.storeSet (get_sled_pending_key sol) solution_json false]) := by
      simp only [handleCommand, hser]
      rw [if_pos hfail]
    rw [hred]
    constructor
    · intro i hi
      rcases hi with hi | hi <;>
      · exfalso
        cases i with
        | zero => simp at hi
        | succ n => cases n <;> simp at hi
    · intro _
      refine ⟨?_, rfl⟩
      intro e he
      simp only [List.mem_singleton] at he
      subst he
      exact ⟨by simp, by simp⟩
  · have hfail' : set_fails (get_sled_pending_key sol) solution_json = false := by
      simp at hfail
      exact hfail
    cases hws : is_websocket_mode with
    | false =>
      have hred : handleCommand serialize_solution set_fails false store
          (.submitSolution sol) =
          (storeInsert store (get_sled_pending_key sol) solution_json,
            [.storeSet (get_sled_pending_key sol) solution_json true,
              .spawnSubmission sol]) := by
        simp only [handleCommand, hser]
        rw [if_neg (by rw [hfail']; simp)]
        rfl
      rw [hred]
      constructor
      · intro i hi
        refine ⟨0, ?_, by simp, storeGet_insert_self _ _ _⟩
        rcases hi with hi | hi
        · cases i with
          | zero => simp at hi
          | succ n => omega
        · exfalso
          cases i with
          | zero => simp at hi
          | succ n => cases n <;> simp at hi
      · intro hc
        rw [hfail'] at hc
        exact absurd hc (by simp)
    | true =>
      have hred : handleCommand serialize_solution set_fails true store
          (.submitSolution sol) =
          (storeInsert store (get_sled_pending_key sol) solution_json,
            [.storeSet (get_sled_pending_key sol) solution_json true,
              .wsSend sol]) := by
        simp only [handleCommand, hser]
        rw [if_neg (by rw [hfail']; simp)]
        rfl
      rw [hred]
      constructor
      · intro i hi
        refine ⟨0, ?_, by simp, storeGet_insert_self _ _ _⟩
        rcases hi with hi | hi
        · exfalso
          cases i with
          | zero => simp at hi
          | succ n => cases n <;> simp at hi
        · cases i with
          | zero => simp at hi
          | succ n => omega
      · intro hc
        rw [hfail'] at hc
        exact absurd hc (by simp)

/-- Witness for C2 in HTTP mode with a reliable store. -/
theorem submit_solution_persist_before_network_witness :
    (fun _ : PendingSolution => some "soljson") solW = some "soljson" ∧
    storeGet (handleCommand (fun _ => some "soljson") (fun _ _ => false) false
        [] (.submitSolution solW)).1 (get_sled_pending_key solW) =
      some "soljson" := by
  refine ⟨rfl, ?_⟩
  obtain ⟨j, hj, hset, hget⟩ :=
    (submit_solution_persist_before_network (fun _ => some "soljson")
      (fun _ _ => false) false [] solW "soljson" rfl).1 1 (Or.inl (by decide))
  exact hget

/-! ## The Challenge Manager (C4, C7) -/

/-- A challenge (`ChallengeData`; the struct declaration is not in the
sources, the fields are taken from its construction in
`src/challenge_manager.rs` and the spec, section 3). -/
structure ChallengeData where
  challenge_id : String
  difficulty : String
  no_pre_mine_key : String
  no_pre_mine_hour_str : String
  latest_submission : String
  challenge_number : Nat
  day : Nat
  issued_at : String
deriving DecidableEq

/-- Manager state relevant to `NewChallenge` handling: the current
challenge and the stop flag of the running miner (flags are abstracted as
numbers). -/
structure MgrState where
  current_challenge : Option ChallengeData
  current_stop_signal : Option Nat
deriving DecidableEq

/-- Observable actions of a `NewChallenge` cycle, in program order. -/
inductive MgrEvent where
  | sendSaveState (key value : String)
  | startMining (challenge_id : String)
deriving DecidableEq

/-- The `NewChallenge` arm of `run_challenge_manager` from
`src/challenge_manager.rs`: deduplicate on the current challenge id, else
persist `challenge:<id>` and `last_challenge_id`, record the challenge as
current, and invoke `start_mining` exactly when no challenge was current
(`is_mining`).  `serialize_challenge` models `serde_json::to_string`;
`start_mining` abstracts the derivation/registration/spawn closure and
returns the new stop flag. -/
def handleNewChallenge (serialize_challenge : ChallengeData → Option String)
    (start_mining : ChallengeData → Except String (Option Nat))
    (st : MgrState) (challenge : ChallengeData) :
    MgrState × List MgrEvent × Except String Unit :=
  let is_duplicate := match st.current_challenge with
    | some c => c.challenge_id == challenge.challenge_id
    | none => false
  if is_duplicate then (st, [], .ok ())
  else
    match serialize_challenge challenge with
    | none => (st, [], .error "Failed to serialize challenge data")
    | some challenge_json =>
      let evs := [MgrEvent.sendSaveState
          (SLED_KEY_CHALLENGE ++ ":" ++ challenge.challenge_id) challenge_json,
        MgrEvent.sendSaveState "last_challenge_id" challenge.challenge_id]
      let is_mining := st.current_challenge.isSome
      let st2 := { st with current_challenge := some challenge }
      if is_mining then (st2, evs, .ok ())
      else
        match start_mining challenge with
        | .error e => (st2, evs, .error e)
        | .ok sig =>
          ({ st2 with current_stop_signal := sig },
            evs ++ [.startMining challenge.challenge_id], .ok ())

/-- C4: a duplicate `NewChallenge` is ignored with the state unchanged and
nothing persisted or spawned; a fresh one persists `challenge:<id>` and
`last_challenge_id`, and starts a miner with the fresh stop flag exactly
when no miner is running. -/
theorem new_challenge_handling
    (serialize_challenge : ChallengeData → Option String)
    (start_mining : ChallengeData → Except String (Option Nat))
    (st : MgrState) (challenge : ChallengeData) (challenge_json : String)
    (hser : serialize_challenge challenge = some challenge_json) :
    (∀ c0, st.current_challenge = some c0 →
      c0.challenge_id = challenge.challenge_id →
      handleNewChallenge serialize_challenge start_mining st challenge =
        (st, [], .ok ())) ∧
    (∀ c0, st.current_challenge = some c0 →
      c0.challenge_id ≠ challenge.challenge_id →
      handleNewChallenge serialize_challenge start_mining st challenge =
        ({ st with current_challenge := some challenge },
          [.sendSaveState (SLED_KEY_CHALLENGE ++ ":" ++ challenge.challenge_id)
              challenge_json,
            .sendSaveState "last_challenge_id" challenge.challenge_id],
          .ok ())) ∧
    (∀ sig, st.current_challenge = none →
      start_mining challenge = .ok sig →
      handleNewChallenge serialize_challenge start_mining st challenge =
        ({ current_challenge := some challenge, current_stop_signal := sig },
          [.sendSaveState (SLED_KEY_CHALLENGE ++ ":" ++ challenge.challenge_id)
              challenge_json,
            .sendSaveState "last_challenge_id" challenge.challenge_id,
            .startMining challenge.challenge_id],
          .ok ())) := by
  refine ⟨?_, ?_, ?_⟩
  · intro c0 hc0 hid
    simp only [handleNewChallenge, hc0]
    rw [if_pos (by rw [hid]; simp)]
  · intro c0 hc0 hid
    simp only [handleNewChallenge, hc0, hser]
    rw [if_neg (by simp [hid])]
    rfl
  · intro sig hc0 hsm
    simp only [handleNewChallenge, hc0, hser, hsm]
    rfl

/-- A concrete challenge for the witnesses. -/
def chW : ChallengeData :=
  { challenge_id := "ch1", difficulty := "0000ffff", no_pre_mine_key := "k",
    no_pre_mine_hour_str := "h", latest_submission := "t",
    challenge_number := 1, day := 1, issued_at := "i" }

/-- Witness for C4 with a concrete fresh challenge and idle manager. -/
theorem new_challenge_handling_witness :
    (fun _ : ChallengeData => some "cjson") chW = some "cjson" ∧
    handleNewChallenge (fun _ => some "cjson") (fun _ => .ok (some 1))
        { current_challenge := none, current_stop_signal := none } chW =
      ({ current_challenge := some chW, current_stop_signal := some 1 },
        [.sendSaveState (SLED_KEY_CHALLENGE ++ ":" ++ chW.challenge_id) "cjson",
          .sendSaveState "last_challenge_id" chW.challenge_id,
          .startMining chW.challenge_id],
        .ok ()) :=
  ⟨rfl,
    (new_challenge_handling (fun _ => some "cjson") (fun _ => .ok (some 1))
      { current_challenge := none, current_stop_signal := none } chW "cjson"
      rfl).2.2 (some 1) rfl rfl⟩

/-- Decimal digit accumulator of `str::parse::<u32>`. -/
def parseDecimalAcc : Nat → List Char → Option Nat
  | acc, [] => some acc
  | acc, c :: cs =>
    if 48 ≤ c.toNat ∧ c.toNat ≤ 57 then
      parseDecimalAcc (acc * 10 + (c.toNat - 48)) cs
    else none

/-- `str::parse::<u32>`: decimal parse with the u32 range check. -/
def parse_u32 (s : String) : Option Nat :=
  if s.data = [] then none
  else
    match parseDecimalAcc 0 s.data with
    | some n => if n < 2 ^ 32 then some n else none
    | none => none

/-- The cursor resolution of the mnemonic arm: the stored
`mnemonic_index:<challenge_id>` value parsed with
`parse().unwrap_or(starting_index)`, or the configured starting index when
absent. -/
def resolved_start (get_state : String → Option String)
    (starting_index : Nat) (key : String) : Nat :=
  match get_state key with
  | some index_str => (parse_u32 index_str).getD starting_index
  | none => starting_index

/-- The receipt-skipping walk of the mnemonic arm
(`src/challenge_manager.rs`, the loop over `sync_check_receipt_exists`):
skip every index whose receipt exists (`some true`), stop on a clean index
(`some false`) or on a Sled error (`none`, the fallback break); the u32
increment wraps.  The loop is unbounded in the source; `fuel` bounds the
recursion. -/
def walk_clean_index (check : Nat → Option Bool) : Nat → Nat → Nat
  | i, 0 => i
  | i, fuel + 1 =>
    match check i with
    | some true => walk_clean_index check ((i + 1) % 2 ^ 32) fuel
    | some false => i
    | none => i

/-- Observable actions of the mnemonic miner start, in program order. -/
inductive MnEvent where
  | saveIndex (key value : String)
  | saveWalletKey (address : String)
  | spawnWorkers (address : String)
deriving DecidableEq

/-- The mnemonic arm of `start_mining` in `run_challenge_manager`: resolve
the cursor, walk to a receipt-free index, persist it under
`mnemonic_index:<challenge_id>`, record the wallet mapping, then spawn the
workers; returns the chosen index, the derived address, and the ordered
actions.  `derive` abstracts `derive_key_pair_from_mnemonic` plus Bech32
encoding; `wallet_key` abstracts the hash-based wallet mapping key. -/
def start_mining_mnemonic (get_state : String → Option String)
    (derive : Nat → String) (check_receipt : String → Option Bool)
    (starting_index : Nat) (challenge_id _wallet_key : String)
    (fuel : Nat) : Nat × String × List MnEvent :=
  let mnemonic_index_key := SLED_KEY_MNEMONIC_INDEX ++ ":" ++ challenge_id
  let deriv_index := resolved_start get_state starting_index mnemonic_index_key
  let final_deriv_index :=
    walk_clean_index (fun i => check_receipt (derive i)) deriv_index fuel
  let address := derive final_deriv_index
  (final_deriv_index, address,
    [.saveIndex mnemonic_index_key (toString final_deriv_index),
      .saveWalletKey address,
      .spawnWorkers address])

theorem walk_clean_index_finds_first (check : Nat → Option Bool)
    (receiptB : Nat → Bool) (hchk : ∀ i, check i = some (receiptB i)) :
    ∀ (fuel start n : Nat), n < fuel → start + n < 2 ^ 32 →
      receiptB (start + n) = false → (∀ m < n, receiptB (start + m) = true) →
      walk_clean_index check start fuel = start + n := by
  intro fuel
  induction fuel with
  | zero => intro start n h; omega
  | succ f ih =>
    intro start n hn hb hfalse htrue
    cases n with
    | zero =>
      have h0 : receiptB start = false := by simpa using hfalse
      simp only [walk_clean_index, hchk, h0]
      omega
    | succ m =>
      have h0 : receiptB start = true := by
        have := htrue 0 (by omega)
        simpa using this
      have hmod : (start + 1) % 2 ^ 32 = start + 1 :=
        Nat.mod_eq_of_lt (by omega)
      simp only [walk_clean_index, hchk, h0, hmod]
      have hstep := ih (start + 1) m (by omega) (by omega)
        (by rw [show start + 1 + m = start + (m + 1) by omega]; exact hfalse)
        (fun j hj => by
          rw [show start + 1 + j = start + (j + 1) by omega]
          exact htrue (j + 1) (by omega))
      rw [hstep]
      omega

/-- C7: the mnemonic arm lands on the first index at or after the resolved
cursor (the stored `mnemonic_index:<challenge_id>` or the configured
starting index when absent) whose derived address has no stored receipt;
that index is persisted under `mnemonic_index:<challenge_id>` before the
workers are spawned, and the selected address never has a receipt. -/
theorem mnemonic_selects_first_clean (get_state : String → Option String)
    (derive : Nat → String) (check_receipt : String → Option Bool)
    (receiptB : Nat → Bool)
    (hchk : ∀ i, check_receipt (derive i) = some (receiptB i))
    (starting_index : Nat) (challenge_id wallet_key : String)
    (fuel n cursor : Nat)
    (hcur : resolved_start get_state starting_index
      (SLED_KEY_MNEMONIC_INDEX ++ ":" ++ challenge_id) = cursor)
    (hfuel : n < fuel) (hbound : cursor + n < 2 ^ 32)
    (hclean : receiptB (cursor + n) = false)
    (hsolved : ∀ m < n, receiptB (cursor + m) = true) :
    (start_mining_mnemonic get_state derive check_receipt starting_index
        challenge_id wallet_key fuel).1 = cursor + n ∧
    receiptB (start_mining_mnemonic get_state derive check_receipt
        starting_index challenge_id wallet_key fuel).1 = false ∧
    (start_mining_mnemonic get_state derive check_receipt starting_index
        challenge_id wallet_key fuel).2.2 =
      [.saveIndex (SLED_KEY_MNEMONIC_INDEX ++ ":" ++ challenge_id)
          (toString (cursor + n)),
        .saveWalletKey (derive (cursor + n)),
        .spawnWorkers (derive (cursor + n))] := by
  have hwalk := walk_clean_index_finds_first
    (fun i => check_receipt (derive i)) receiptB hchk fuel cursor n hfuel
    hbound hclean hsolved
  have h1 : (start_mining_mnemonic get_state derive check_receipt
      starting_index challenge_id wallet_key fuel).1 = cursor + n := by
    simp only [start_mining_mnemonic, hcur, hwalk]
  refine ⟨h1, ?_, ?_⟩
  · rw [h1, hclean]
  · simp only [start_mining_mnemonic, hcur, hwalk]

/-- Witness for C7: receipts exist at indices 0 and 1, the miner lands on
index 2. -/
theorem mnemonic_selects_first_clean_witness :
    resolved_start (fun _ => none) 0
      (SLED_KEY_MNEMONIC_INDEX ++ ":" ++ "chA") = 0 ∧
    (start_mining_mnemonic (fun _ => none) (fun i => toString i)
        (fun a => some (a == "0" || a == "1")) 0 "chA" "wk" 10).1 = 2 :=
  ⟨rfl,
    (mnemonic_selects_first_clean (fun _ => none) (fun i => toString i)
      (fun a => some (a == "0" || a == "1"))
      (fun i => toString i == "0" || toString i == "1") (fun i => rfl)
      0 "chA" "wk" 10 2 0 rfl (by omega) (by decide) (by decide)
      (by decide)).1⟩

end Shadow
